import Mathlib

/-! Verification development for the Memoria workflow subsystem: the run
state machine, conversation store, event log / stream dispatcher, and the
waitlist edge-function handler. Data definitions follow the database
design document (tables `workflows`, `workflow_runs`, `conversation_turns`,
`workflow_events`) and the code fragments embedded in the repository;
operations that exist only as prose contracts are modelled from the spec
and say so in their doc comments. Opaque JSON blobs are modelled as
strings, UUIDs and BIGINT cursors as naturals. -/

/-- Lifecycle status of a workflow run (column `workflow_runs.status`). -/
inductive RunStatus
| running
| waiting_for_input
| completed
| failed
| cancelled
deriving DecidableEq

/-- Lifecycle status of a conversation (column `workflows.status`). -/
inductive WorkflowStatus
| active
| archived
| error
deriving DecidableEq

/-- One clarification question/answer exchange, as stored in the
`clarifications` array of a run checkpoint and in
`conversation_turns.clarification_history`. -/
structure QA where
  question : String
  answer : String
deriving DecidableEq

/-- Checkpoint blob of a run (column `workflow_runs.state`): the pending
clarification question, accumulated question/answer pairs, and the
intermediate pipeline artifacts (subqueries, reasoning-bank hits). -/
structure CheckpointState where
  pending_question : Option String
  clarifications : List QA
  subqueries : List String
  reasoningbank_hits : List String
deriving DecidableEq

/-- Empty checkpoint, the `state = {}` default at run creation. -/
def CheckpointState.empty : CheckpointState := ⟨none, [], [], []⟩

/-- Row of `workflow_runs`: the execution state machine for one user
message. -/
structure WorkflowRun where
  id : Nat
  workflow_id : Nat
  message_id : Nat
  status : RunStatus
  user_input : String
  ask_clarifications : Bool
  state : CheckpointState
  final_output : Option String
  error : Option String
deriving DecidableEq

/-- Row of `workflows`: the conversation container, holding the nullable
pointer `current_run_id` to the active run. -/
structure Workflow where
  id : Nat
  status : WorkflowStatus
  summary : Option String
  preferences : String
  current_run_id : Option Nat
  error : Option String
deriving DecidableEq

/-- Row of `conversation_turns`: the permanent record of one completed
interaction, keyed by the producing run's `message_id`. -/
structure ConversationTurn where
  message_id : Nat
  workflow_id : Nat
  run_id : Nat
  user_input : String
  clarification_history : List QA
  subqueries : List String
  reasoningbank_hits : List String
  retrieved_memories : List String
  ai_answer : Option String
  ai_reasoning : Option String
  ai_tool_calls : Option String
deriving DecidableEq

/-- Row of `workflow_events`: one streamable occurrence; `id` is the
auto-incrementing BIGINT cursor. -/
structure WorkflowEvent where
  id : Nat
  workflow_id : Nat
  run_id : Option Nat
  payload : String
  is_final : Bool
  is_error : Bool
deriving DecidableEq

/-- Database state: the four tables plus the event-cursor sequence and a
fresh-identifier source standing for UUID generation. -/
structure DB where
  workflows : List Workflow
  runs : List WorkflowRun
  turns : List ConversationTurn
  events : List WorkflowEvent
  next_event_id : Nat
  next_uuid : Nat
deriving DecidableEq

/-- Error taxonomy of §7 relevant to the state machine: not-found,
busy-conflict, invalid-state. -/
inductive ApiError
| notFound
| conflict
| invalidState
deriving DecidableEq

/-- Lookup of a conversation row by primary key. -/
def findWorkflow (db : DB) (wid : Nat) : Option Workflow :=
  db.workflows.find? (fun w => w.id == wid)

/-- Lookup of a run row by primary key. -/
def findRun (db : DB) (rid : Nat) : Option WorkflowRun :=
  db.runs.find? (fun r => r.id == rid)

/-- Lookup of a turn row by its primary key `message_id`. -/
def findTurn (db : DB) (mid : Nat) : Option ConversationTurn :=
  db.turns.find? (fun t => t.message_id == mid)

/-- Outcome of scenario classification: resume the paused run identified
by `rid` with a clarification answer, or start a new turn. -/
inductive Scenario
| clarification (rid : Nat)
| new_turn
deriving DecidableEq

/-- Embedding of `determine_scenario` from the database design document
(section "How to Differentiate: Clarification vs New Turn"). The Python
original raises NotFoundError when the workflow row is missing,
ConflictError when the pointed-to run is `running`, returns the paused
run for `waiting_for_input`, and falls through to "new_turn" otherwise.
It dereferences the run behind `current_run_id` without a null check, so
a dangling pointer crashes; that crash is modelled as `none`. -/
def determine_scenario (db : DB) (workflow_id : Nat) :
    Option (Except ApiError Scenario) :=
  match findWorkflow db workflow_id with
  | none => some (Except.error ApiError.notFound)
  | some workflow =>
    match workflow.current_run_id with
    | some rid =>
      match findRun db rid with
      | none => none
      | some current_run =>
        if current_run.status = RunStatus.waiting_for_input then
          some (Except.ok (Scenario.clarification rid))
        else if current_run.status = RunStatus.running then
          some (Except.error ApiError.conflict)
        else
          some (Except.ok Scenario.new_turn)
    | none => some (Except.ok Scenario.new_turn)

/-- Terminal run statuses: `completed`, `failed`, `cancelled`. -/
def isTerminal : RunStatus → Bool
| RunStatus.completed => true
| RunStatus.failed => true
| RunStatus.cancelled => true
| _ => false

/-- Non-terminal (active) run statuses: `running`, `waiting_for_input`. -/
def isActiveStatus (s : RunStatus) : Bool := !(isTerminal s)

/-- Partial checkpoint update merged in between pipeline stages. -/
structure CheckpointUpdate where
  subqueries : Option (List String)
  reasoningbank_hits : Option (List String)
deriving DecidableEq

/-- Merge of a partial update into a checkpoint, leaving absent fields
untouched. -/
def mergeCheckpoint (s : CheckpointState) (u : CheckpointUpdate) :
    CheckpointState :=
  { s with
    subqueries := u.subqueries.getD s.subqueries,
    reasoningbank_hits := u.reasoningbank_hits.getD s.reasoningbank_hits }

/-- Modelled from the spec: contract `submitClarification(run, answer)`
(§4.1); the run state machine itself is not implemented in the
repository. Requires status `waiting_for_input` with a pending question
(a missing pending question is InvalidState per the §9 note); in one
update it transitions back to `running`, appends the question/answer
pair to the clarification history and clears the pending question. -/
def runSubmitClarification (r : WorkflowRun) (answer : String) :
    Except ApiError WorkflowRun :=
  if r.status = RunStatus.waiting_for_input then
    match r.state.pending_question with
    | some q =>
      Except.ok { r with
        status := RunStatus.running,
        state := { r.state with
          pending_question := none,
          clarifications := r.state.clarifications ++ [⟨q, answer⟩] } }
    | none => Except.error ApiError.invalidState
  else Except.error ApiError.invalidState

/-- Modelled from the spec: contract `checkpoint(run, partialUpdate)`
(§4.1); not implemented in the repository. Merges intermediate artifacts
into the checkpoint without changing status; legal only while
`running`. -/
def runCheckpoint (r : WorkflowRun) (u : CheckpointUpdate) :
    Except ApiError WorkflowRun :=
  if r.status = RunStatus.running then
    Except.ok { r with state := mergeCheckpoint r.state u }
  else Except.error ApiError.invalidState

/-- Modelled from the spec: contract `pause(run, question)` (§4.1); not
implemented in the repository. Requires `running`; stores the pending
question and transitions to `waiting_for_input`. -/
def runPause (r : WorkflowRun) (question : String) :
    Except ApiError WorkflowRun :=
  if r.status = RunStatus.running then
    Except.ok { r with
      status := RunStatus.waiting_for_input,
      state := { r.state with pending_question := some question } }
  else Except.error ApiError.invalidState

/-- Modelled from the spec: contract `complete(run, finalOutput)` (§4.1);
not implemented in the repository. Requires `running`; sets the final
output in the same transition that enters `completed`. -/
def runComplete (r : WorkflowRun) (finalOutput : String) :
    Except ApiError WorkflowRun :=
  if r.status = RunStatus.running then
    Except.ok { r with
      status := RunStatus.completed,
      final_output := some finalOutput }
  else Except.error ApiError.invalidState

/-- Modelled from the spec: contract `fail(run, errorDetail)` (§4.1); not
implemented in the repository. Legal from any non-terminal status;
transitions to `failed` carrying the error detail. -/
def runFail (r : WorkflowRun) (errorDetail : String) :
    Except ApiError WorkflowRun :=
  if isTerminal r.status then Except.error ApiError.invalidState
  else
    Except.ok { r with
      status := RunStatus.failed,
      error := some errorDetail }

/-- Modelled from the spec: contract `cancel(run)` (§4.1); not
implemented in the repository. Legal from `running` or
`waiting_for_input`; transitions to `cancelled`. -/
def runCancel (r : WorkflowRun) : Except ApiError WorkflowRun :=
  if r.status = RunStatus.running ∨ r.status = RunStatus.waiting_for_input
  then Except.ok { r with status := RunStatus.cancelled }
  else Except.error ApiError.invalidState

/-- C2: every status-changing operation on a run whose status is terminal
(`completed`, `failed` or `cancelled`) fails with the invalid-state
error, so a terminal run's status never changes again. -/
theorem terminal_runs_reject_all_ops (r : WorkflowRun)
    (h : isTerminal r.status = true) :
    (∀ a, runSubmitClarification r a = Except.error ApiError.invalidState) ∧
    (∀ u, runCheckpoint r u = Except.error ApiError.invalidState) ∧
    (∀ q, runPause r q = Except.error ApiError.invalidState) ∧
    (∀ out, runComplete r out = Except.error ApiError.invalidState) ∧
    (∀ e, runFail r e = Except.error ApiError.invalidState) ∧
    runCancel r = Except.error ApiError.invalidState := by
  cases hs : r.status <;>
    simp [isTerminal, hs, runSubmitClarification, runCheckpoint, runPause,
      runComplete, runFail, runCancel] at h ⊢

/-- Witness for C2 at a concrete completed run. -/
theorem terminal_runs_reject_all_ops_witness :
    isTerminal (WorkflowRun.mk 1 1 2 RunStatus.completed "q" true
      CheckpointState.empty (some "out") none).status = true ∧
    runCancel (WorkflowRun.mk 1 1 2 RunStatus.completed "q" true
      CheckpointState.empty (some "out") none) =
      Except.error ApiError.invalidState := by
  refine ⟨by decide, ?_⟩
  exact (terminal_runs_reject_all_ops _ (by decide)).2.2.2.2.2

/-- Well-formedness of active-run pointers: every `current_run_id` on a
workflow row resolves to an existing run row (the Python code would
crash on a dangling pointer). -/
def PointersResolve (db : DB) : Bool :=
  db.workflows.all (fun w =>
    match w.current_run_id with
    | some rid => (findRun db rid).isSome
    | none => true)

/-- C1: classification of a continue request. A missing workflow fails
not-found; a non-null pointer to a `waiting_for_input` run classifies as
clarification answer; a non-null pointer to a `running` run fails
busy-conflict; a null pointer classifies as new turn; and on any
database whose pointers resolve, exactly one of these four outcomes is
produced. -/
theorem determine_scenario_cases (db : DB) (wid : Nat)
    (hwf : PointersResolve db = true) :
    (findWorkflow db wid = none →
      determine_scenario db wid = some (Except.error ApiError.notFound)) ∧
    (∀ w, findWorkflow db wid = some w → ∀ rid,
        w.current_run_id = some rid → ∀ r, findRun db rid = some r →
      (r.status = RunStatus.waiting_for_input →
        determine_scenario db wid =
          some (Except.ok (Scenario.clarification rid))) ∧
      (r.status = RunStatus.running →
        determine_scenario db wid = some (Except.error ApiError.conflict))) ∧
    (∀ w, findWorkflow db wid = some w → w.current_run_id = none →
      determine_scenario db wid = some (Except.ok Scenario.new_turn)) ∧
    (∃ res, determine_scenario db wid = some res ∧
      (res = Except.error ApiError.notFound ∨
       (∃ rid, res = Except.ok (Scenario.clarification rid)) ∨
       res = Except.error ApiError.conflict ∨
       res = Except.ok Scenario.new_turn)) := by
  refine ⟨?_, ?_, ?_, ?_⟩
  · intro h
    simp [determine_scenario, h]
  · intro w hw rid hrid r hr
    constructor
    · intro hst
      simp [determine_scenario, hw, hrid, hr, hst]
    · intro hst
      simp [determine_scenario, hw, hrid, hr, hst]
  · intro w hw h
    simp [determine_scenario, hw, h]
  · cases hfw : findWorkflow db wid with
    | none =>
      exact ⟨_, by simp [determine_scenario, hfw], Or.inl rfl⟩
    | some w =>
      cases hcr : w.current_run_id with
      | none =>
        refine ⟨Except.ok Scenario.new_turn,
          by simp [determine_scenario, hfw, hcr], ?_⟩
        exact Or.inr (Or.inr (Or.inr rfl))
      | some rid =>
        have hwmem : w ∈ db.workflows := List.mem_of_find?_eq_some hfw
        have hall := List.all_eq_true.mp hwf w hwmem
        rw [hcr] at hall
        obtain ⟨r, hr⟩ := Option.isSome_iff_exists.mp hall
        cases hst : r.status with
        | waiting_for_input =>
          refine ⟨Except.ok (Scenario.clarification rid),
            by simp [determine_scenario, hfw, hcr, hr, hst], ?_⟩
          exact Or.inr (Or.inl ⟨rid, rfl⟩)
        | running =>
          refine ⟨Except.error ApiError.conflict,
            by simp [determine_scenario, hfw, hcr, hr, hst], ?_⟩
          exact Or.inr (Or.inr (Or.inl rfl))
        | completed =>
          refine ⟨Except.ok Scenario.new_turn,
            by simp [determine_scenario, hfw, hcr, hr, hst], ?_⟩
          exact Or.inr (Or.inr (Or.inr rfl))
        | failed =>
          refine ⟨Except.ok Scenario.new_turn,
            by simp [determine_scenario, hfw, hcr, hr, hst], ?_⟩
          exact Or.inr (Or.inr (Or.inr rfl))
        | cancelled =>
          refine ⟨Except.ok Scenario.new_turn,
            by simp [determine_scenario, hfw, hcr, hr, hst], ?_⟩
          exact Or.inr (Or.inr (Or.inr rfl))

/-- Concrete paused run used by example databases. -/
def pausedRun : WorkflowRun :=
  ⟨5, 1, 9, RunStatus.waiting_for_input, "best product?", true,
    ⟨some "which region?", [], [], []⟩, none, none⟩

/-- Concrete conversation whose active run is paused. -/
def pausedDb : DB :=
  ⟨[⟨1, WorkflowStatus.active, none, "", some 5, none⟩], [pausedRun],
    [], [], 0, 10⟩

/-- Witness for C1 on a concrete database with a paused active run. -/
theorem determine_scenario_cases_witness :
    PointersResolve pausedDb = true ∧
    determine_scenario pausedDb 1 =
      some (Except.ok (Scenario.clarification 5)) := by
  refine ⟨by decide, ?_⟩
  exact (((determine_scenario_cases pausedDb 1 (by decide)).2.1
    ⟨1, WorkflowStatus.active, none, "", some 5, none⟩ rfl 5 rfl
    pausedRun rfl).1 rfl)

/-- C4: a run paused with pending question Q that then receives answer A
through `runSubmitClarification` transitions back to `running` in a
single update that also appends `{question Q, answer A}` as the last
element of the checkpoint's clarification history and clears the
pending-question field. -/
theorem pause_then_submit_round_trip (r r1 r2 : WorkflowRun)
    (q a : String)
    (hp : runPause r q = Except.ok r1)
    (hs : runSubmitClarification r1 a = Except.ok r2) :
    r2.status = RunStatus.running ∧
    r2.state.pending_question = none ∧
    r2.state.clarifications = r1.state.clarifications ++ [⟨q, a⟩] ∧
    r2.state.clarifications.getLast? = some ⟨q, a⟩ := by
  by_cases hrun : r.status = RunStatus.running
  · rw [runPause, if_pos hrun] at hp
    have hr1 : r1 = { r with
        status := RunStatus.waiting_for_input,
        state := { r.state with pending_question := some q } } := by
      cases hp
      rfl
    subst hr1
    simp only [runSubmitClarification, if_pos rfl] at hs
    have hr2 : r2 = { r with
        status := RunStatus.running,
        state := { r.state with
          pending_question := none,
          clarifications := r.state.clarifications ++ [⟨q, a⟩] } } := by
      cases hs
      rfl
    subst hr2
    simp [List.getLast?_concat]
  · rw [runPause, if_neg hrun] at hp
    cases hp

/-- Concrete running run used by the round-trip witness. -/
def runningRun : WorkflowRun :=
  ⟨6, 1, 9, RunStatus.running, "best product?", true,
    CheckpointState.empty, none, none⟩

/-- State of `runningRun` after pausing with a question. -/
def pausedRunW : WorkflowRun :=
  ⟨6, 1, 9, RunStatus.waiting_for_input, "best product?", true,
    ⟨some "which region?", [], [], []⟩, none, none⟩

/-- State of `pausedRunW` after the clarification answer arrives. -/
def resumedRunW : WorkflowRun :=
  ⟨6, 1, 9, RunStatus.running, "best product?", true,
    ⟨none, [⟨"which region?", "East coast"⟩], [], []⟩, none, none⟩

/-- Witness for C4 on a concrete pause/answer cycle. -/
theorem pause_then_submit_round_trip_witness :
    runPause runningRun "which region?" = Except.ok pausedRunW ∧
    runSubmitClarification pausedRunW "East coast" =
      Except.ok resumedRunW ∧
    (resumedRunW.status = RunStatus.running ∧
     resumedRunW.state.pending_question = none ∧
     resumedRunW.state.clarifications =
       pausedRunW.state.clarifications ++
         [⟨"which region?", "East coast"⟩] ∧
     resumedRunW.state.clarifications.getLast? =
       some ⟨"which region?", "East coast"⟩) := by
  refine ⟨by rfl, by rfl, ?_⟩
  exact pause_then_submit_round_trip runningRun pausedRunW resumedRunW
    "which region?" "East coast" (by rfl) (by rfl)

/-- Modelled from the spec: contract `append(conversationId, runId?,
payload, isFinal, isError)` (§4.4); the insert itself is not implemented
in the repository, only the schema (auto-incrementing BIGINT `id`).
Inserts the event with the next cursor value, atomically with cursor
assignment, and returns the assigned cursor. -/
def appendEvent (db : DB) (wid : Nat) (rid : Option Nat)
    (payload : String) (fin err : Bool) : DB × Nat :=
  ({ db with
      events := db.events ++ [⟨db.next_event_id, wid, rid, payload, fin, err⟩],
      next_event_id := db.next_event_id + 1 },
   db.next_event_id)

/-- Embedding of the cursor read queries from the database design
document ("How Cursor Works"): select the conversation's events,
restricted to `id > cursor` when a cursor is supplied, ordered by `id`
(the table is kept in insertion order, which the sortedness invariant
below proves is `id` order). -/
def readFrom (db : DB) (wid : Nat) (cursor : Option Nat) :
    List WorkflowEvent :=
  db.events.filter (fun e =>
    e.workflow_id == wid &&
    match cursor with
    | some c => decide (c < e.id)
    | none => true)

/-- Embedding of the final-event lookup from the database design
document ("Final-Only Mode"): the conversation's event with
`is_final = true`. -/
def readFinal (db : DB) (wid : Nat) : Option WorkflowEvent :=
  db.events.find? (fun e => e.workflow_id == wid && e.is_final)

/-- Well-formedness of the event log: events are stored in strictly
increasing cursor order and every stored cursor is below the next one to
be assigned. -/
def EventLogWF (db : DB) : Prop :=
  db.events.Pairwise (fun a b => a.id < b.id) ∧
  ∀ e ∈ db.events, e.id < db.next_event_id

/-- Arguments of one event append. -/
structure AppendReq where
  workflow_id : Nat
  run_id : Option Nat
  payload : String
  is_final : Bool
  is_error : Bool

/-- Application of one append request. -/
def applyAppend (db : DB) (a : AppendReq) : DB × Nat :=
  appendEvent db a.workflow_id a.run_id a.payload a.is_final a.is_error

/-- Application of a batch of append requests in order. -/
def appendAll (db : DB) (l : List AppendReq) : DB :=
  l.foldl (fun d a => (applyAppend d a).1) db

/-- Appending never decreases the next cursor to be assigned. -/
theorem next_event_id_le_appendAll (l : List AppendReq) (db : DB) :
    db.next_event_id ≤ (appendAll db l).next_event_id := by
  induction l generalizing db with
  | nil => exact Nat.le_refl _
  | cons a t ih =>
    calc db.next_event_id
        ≤ (applyAppend db a).1.next_event_id := by
          simp [applyAppend, appendEvent]
      _ ≤ (appendAll (applyAppend db a).1 t).next_event_id := ih _

/-- An append preserves well-formedness of the event log. -/
theorem eventLogWF_appendEvent (db : DB) (wid : Nat) (rid : Option Nat)
    (payload : String) (fin err : Bool) (h : EventLogWF db) :
    EventLogWF (appendEvent db wid rid payload fin err).1 := by
  obtain ⟨hpw, hlt⟩ := h
  constructor
  · rw [appendEvent]
    simp only [List.pairwise_append, List.pairwise_cons]
    refine ⟨hpw, by simp, ?_⟩
    intro a ha b hb
    have hb2 : b = ⟨db.next_event_id, wid, rid, payload, fin, err⟩ := by
      simpa using hb
    subst hb2
    exact hlt a ha
  · intro e he
    rw [appendEvent] at he
    simp only [List.mem_append, List.mem_singleton] at he
    rcases he with he | he
    · exact Nat.lt_trans (hlt e he) (Nat.lt_succ_self _)
    · subst he
      exact Nat.lt_succ_self _

/-- C6: cursors are strictly monotone — the cursor assigned to an event
is strictly below the cursor of any event appended later, however many
appends intervene — and `readFrom` with cursor C yields exactly the
conversation's events with cursor above C in cursor order, while
`readFrom` without a cursor yields all of the conversation's events in
cursor order. -/
theorem cursor_monotone_and_readFrom (db : DB) (hwf : EventLogWF db) :
    (∀ a1 a2 mids,
      (applyAppend db a1).2 <
        (applyAppend (appendAll (applyAppend db a1).1 mids) a2).2) ∧
    (∀ wid C e, e ∈ readFrom db wid (some C) ↔
      (e ∈ db.events ∧ e.workflow_id = wid ∧ C < e.id)) ∧
    (∀ wid e, e ∈ readFrom db wid none ↔
      (e ∈ db.events ∧ e.workflow_id = wid)) ∧
    (∀ wid c, (readFrom db wid c).Pairwise (fun a b => a.id < b.id)) := by
  refine ⟨?_, ?_, ?_, ?_⟩
  · intro a1 a2 mids
    have h1 : (applyAppend db a1).2 = db.next_event_id := rfl
    have h2 : (applyAppend db a1).1.next_event_id = db.next_event_id + 1 :=
      rfl
    have h3 := next_event_id_le_appendAll mids (applyAppend db a1).1
    have h4 : (applyAppend (appendAll (applyAppend db a1).1 mids) a2).2 =
        (appendAll (applyAppend db a1).1 mids).next_event_id := rfl
    rw [h1, h4]
    exact Nat.lt_of_lt_of_le (by rw [h2]; omega) h3
  · intro wid C e
    simp [readFrom, List.mem_filter, and_assoc]
  · intro wid e
    simp [readFrom, List.mem_filter]
  · intro wid c
    exact List.Pairwise.sublist (List.filter_sublist _) hwf.1

/-- Empty database used by event-log witnesses. -/
def emptyDb : DB := ⟨[], [], [], [], 0, 0⟩

/-- Witness for C6: two concrete appends on an empty log with no
appends between them. -/
theorem cursor_monotone_and_readFrom_witness :
    EventLogWF emptyDb ∧
    (applyAppend emptyDb ⟨1, none, "progress", false, false⟩).2 <
      (applyAppend
        (appendAll (applyAppend emptyDb
          ⟨1, none, "progress", false, false⟩).1 [])
        ⟨1, none, "memories", true, false⟩).2 := by
  have hwf : EventLogWF emptyDb := ⟨List.Pairwise.nil, by simp [emptyDb]⟩
  exact ⟨hwf, (cursor_monotone_and_readFrom emptyDb hwf).1
    ⟨1, none, "progress", false, false⟩
    ⟨1, none, "memories", true, false⟩ []⟩

/-- C7: while the conversation has no event marked final, `readFinal`
returns none; once its final event has been appended and no further
appends occur, every `readFinal` call returns that same final event and
payload. -/
theorem readFinal_none_then_idempotent (db : DB) (wid : Nat)
    (hnone : ∀ e ∈ db.events, e.workflow_id = wid → e.is_final = false) :
    readFinal db wid = none ∧
    (∀ rid p ie db2 c, appendEvent db wid rid p true ie = (db2, c) →
      readFinal db2 wid = some ⟨db.next_event_id, wid, rid, p, true, ie⟩ ∧
      (readFinal db2 wid).map WorkflowEvent.payload = some p ∧
      readFinal db2 wid = readFinal db2 wid) := by
  have hn : readFinal db wid = none := by
    rw [readFinal, List.find?_eq_none]
    intro e he
    simp only [Bool.and_eq_true, beq_iff_eq, not_and]
    intro hw
    rw [hnone e he hw]
    simp
  refine ⟨hn, ?_⟩
  intro rid p ie db2 c happ
  have hdb2 : db2 = (appendEvent db wid rid p true ie).1 := by
    rw [happ]
  subst hdb2
  have hfind : readFinal (appendEvent db wid rid p true ie).1 wid =
      some ⟨db.next_event_id, wid, rid, p, true, ie⟩ := by
    rw [readFinal, appendEvent]
    simp only [List.find?_append]
    rw [readFinal] at hn
    rw [hn]
    simp
  exact ⟨hfind, by rw [hfind]; rfl, rfl⟩

/-- Witness for C7 on a concrete log holding one non-final event. -/
theorem readFinal_none_then_idempotent_witness :
    (∀ e ∈ (DB.mk [] [] [] [⟨0, 1, none, "progress", false, false⟩] 1 0).events,
      e.workflow_id = 1 → e.is_final = false) ∧
    readFinal (DB.mk [] [] [] [⟨0, 1, none, "progress", false, false⟩] 1 0) 1
      = none ∧
    readFinal (appendEvent
      (DB.mk [] [] [] [⟨0, 1, none, "progress", false, false⟩] 1 0)
      1 (some 5) "memories" true false).1 1 =
      some ⟨1, 1, some 5, "memories", true, false⟩ := by
  have hnone : ∀ e ∈
      (DB.mk [] [] [] [⟨0, 1, none, "progress", false, false⟩] 1 0).events,
      e.workflow_id = 1 → e.is_final = false := by decide
  have h := readFinal_none_then_idempotent
    (DB.mk [] [] [] [⟨0, 1, none, "progress", false, false⟩] 1 0) 1 hnone
  exact ⟨hnone, h.1, (h.2 (some 5) "memories" false _ _ rfl).1⟩

/-- Modelled from the spec: final-only subscription mode (§4.4 and the
"Final-Only Mode" query of the database design document); the dispatcher
is not implemented in the repository. A subscriber attaches when
`backlog` has already been logged for the conversation and `live` is
appended afterwards; it delivers the conversation's final event once
that exists — wherever it sits relative to the attachment point — and
nothing else, then ends. -/
def finalOnlyDeliver (wid : Nat) (backlog live : List WorkflowEvent) :
    List WorkflowEvent :=
  ((backlog ++ live).find?
    (fun e => e.workflow_id == wid && e.is_final)).toList

/-- C8: a final-only subscriber never receives a non-final event, its
delivery does not depend on whether it attached before or after any
events exist, and when the conversation's final event exists it receives
exactly that one event before its stream ends. -/
theorem final_only_mode (wid : Nat) (backlog live : List WorkflowEvent)
    (f : WorkflowEvent) (hmem : f ∈ backlog ++ live)
    (hwid : f.workflow_id = wid) (hfin : f.is_final = true)
    (huniq : ∀ g ∈ backlog ++ live,
      g.workflow_id = wid → g.is_final = true → g = f) :
    (∀ b l e, e ∈ finalOnlyDeliver wid b l →
      e.is_final = true ∧ e.workflow_id = wid) ∧
    finalOnlyDeliver wid backlog live = [f] ∧
    (finalOnlyDeliver wid backlog live).length = 1 ∧
    finalOnlyDeliver wid backlog live =
      finalOnlyDeliver wid [] (backlog ++ live) := by
  have hall : ∀ b l e, e ∈ finalOnlyDeliver wid b l →
      e.is_final = true ∧ e.workflow_id = wid := by
    intro b l e he
    rw [finalOnlyDeliver] at he
    cases hfind : (b ++ l).find?
        (fun e => e.workflow_id == wid && e.is_final) with
    | none => rw [hfind] at he; cases he
    | some x =>
      rw [hfind] at he
      have hex : e = x := by simpa using he
      subst hex
      have := List.find?_some hfind
      simp only [Bool.and_eq_true, beq_iff_eq] at this
      exact ⟨this.2, this.1⟩
  have hsome : finalOnlyDeliver wid backlog live = [f] := by
    rw [finalOnlyDeliver]
    have hex : ∃ x, x ∈ backlog ++ live ∧
        (x.workflow_id == wid && x.is_final) = true := by
      refine ⟨f, hmem, ?_⟩
      simp [hwid, hfin]
    have hisSome := List.find?_isSome.mpr hex
    cases hfind : (backlog ++ live).find?
        (fun e => e.workflow_id == wid && e.is_final) with
    | none => rw [hfind] at hisSome; cases hisSome
    | some x =>
      have hxmem := List.mem_of_find?_eq_some hfind
      have hxp := List.find?_some hfind
      simp only [Bool.and_eq_true, beq_iff_eq] at hxp
      have : x = f := huniq x hxmem hxp.1 hxp.2
      subst this
      rfl
  exact ⟨hall, hsome, by rw [hsome]; rfl, rfl⟩

/-- Witness for C8: a subscriber attaching before any events exist, with
one progress and one final event arriving afterwards. -/
theorem final_only_mode_witness :
    let prog : WorkflowEvent := ⟨0, 1, none, "progress", false, false⟩
    let fin : WorkflowEvent := ⟨1, 1, some 5, "memories", true, false⟩
    ((fin ∈ ([] : List WorkflowEvent) ++ [prog, fin]) ∧
     fin.workflow_id = 1 ∧ fin.is_final = true) ∧
    finalOnlyDeliver 1 [] [prog, fin] = [fin] := by
  intro prog fin
  refine ⟨⟨by simp, rfl, rfl⟩, ?_⟩
  exact (final_only_mode 1 [] [prog, fin] fin (by simp) rfl rfl
    (by decide)).2.1

/-- Count of a conversation's non-terminal runs in a runs table. -/
def activeCountL (runs : List WorkflowRun) (wid : Nat) : Nat :=
  runs.countP (fun r => r.workflow_id == wid && isActiveStatus r.status)

/-- Existence of a non-terminal run for a conversation. -/
def hasActiveL (runs : List WorkflowRun) (wid : Nat) : Bool :=
  runs.any (fun r => r.workflow_id == wid && isActiveStatus r.status)

/-- Update of the run with the given id, leaving the rest untouched. -/
def updateRunList (runs : List WorkflowRun) (rid : Nat)
    (f : WorkflowRun → WorkflowRun) : List WorkflowRun :=
  runs.map (fun r => if r.id = rid then f r else r)

/-- Setting of a conversation's active-run pointer. -/
def setPointer (ws : List Workflow) (wid rid : Nat) : List Workflow :=
  ws.map (fun w =>
    if w.id = wid then { w with current_run_id := some rid } else w)

/-- Clearing of a conversation's active-run pointer. -/
def clearPointer (ws : List Workflow) (wid : Nat) : List Workflow :=
  ws.map (fun w =>
    if w.id = wid then { w with current_run_id := none } else w)

/-- Modelled from the spec: contract `start(conversation, userInput,
allowClarification)` (§4.1) with the pointer update of §4.2 and Scenario
5 steps 3 and 4; not implemented in the repository. Fails not-found when
the conversation row is missing and busy-conflict when the conversation
already has a non-terminal run; otherwise creates a run in `running`
with an empty checkpoint and fresh run and message identifiers, and sets
the conversation's active-run pointer to it in the same atomic unit of
work. -/
def startRun (db : DB) (wid : Nat) (userInput : String)
    (allowClar : Bool) : Except ApiError (DB × Nat) :=
  match findWorkflow db wid with
  | none => Except.error ApiError.notFound
  | some _ =>
    if hasActiveL db.runs wid then Except.error ApiError.conflict
    else
      Except.ok ({ db with
        runs := db.runs ++ [⟨db.next_uuid, wid, db.next_uuid + 1,
          RunStatus.running, userInput, allowClar,
          CheckpointState.empty, none, none⟩],
        workflows := setPointer db.workflows wid db.next_uuid,
        next_uuid := db.next_uuid + 2 }, db.next_uuid)

/-- Modelled from the spec: Scenario 3 of the database design document
and §4.3 step 4; not implemented in the repository. On retrieval
completion the run transitions to `completed` with its final
output set, the durable turn record is created keyed by the run's
message identifier with the retrieval output and no agent answer yet, a
final event is emitted, and the conversation's active-run pointer is
cleared, all as one atomic unit of work. -/
def completeRun (db : DB) (rid : Nat) (finalOutput : String)
    (memories : List String) : Except ApiError DB :=
  match findRun db rid with
  | none => Except.error ApiError.notFound
  | some r =>
    if r.status = RunStatus.running then
      Except.ok { db with
        runs := updateRunList db.runs rid (fun x =>
          { x with
            status := RunStatus.completed,
            final_output := some finalOutput }),
        turns := db.turns ++ [⟨r.message_id, r.workflow_id, rid,
          r.user_input, r.state.clarifications, r.state.subqueries,
          r.state.reasoningbank_hits, memories, none, none, none⟩],
        events := db.events ++ [⟨db.next_event_id, r.workflow_id,
          some rid, finalOutput, true, false⟩],
        next_event_id := db.next_event_id + 1,
        workflows := clearPointer db.workflows r.workflow_id }
    else Except.error ApiError.invalidState

/-- Modelled from the spec: §4.3 step 5 and contract `fail` (§4.1); not
implemented in the repository. Legal from any non-terminal status; the
run transitions to `failed` with the error detail, an error event is
emitted and the conversation's active-run pointer is cleared
atomically. -/
def failRunDb (db : DB) (rid : Nat) (errDetail : String) :
    Except ApiError DB :=
  match findRun db rid with
  | none => Except.error ApiError.notFound
  | some r =>
    if isTerminal r.status then Except.error ApiError.invalidState
    else
      Except.ok { db with
        runs := updateRunList db.runs rid (fun x =>
          { x with
            status := RunStatus.failed,
            error := some errDetail }),
        events := db.events ++ [⟨db.next_event_id, r.workflow_id,
          some rid, errDetail, false, true⟩],
        next_event_id := db.next_event_id + 1,
        workflows := clearPointer db.workflows r.workflow_id }

/-- Modelled from the spec: contract `cancel` (§4.1) and the §4.2 rule
that the pointer is cleared the moment a run reaches a terminal state;
not implemented in the repository. Legal from `running` or
`waiting_for_input`; the run transitions to `cancelled` and the
conversation's active-run pointer is cleared atomically. -/
def cancelRunDb (db : DB) (rid : Nat) : Except ApiError DB :=
  match findRun db rid with
  | none => Except.error ApiError.notFound
  | some r =>
    if isActiveStatus r.status then
      Except.ok { db with
        runs := updateRunList db.runs rid (fun x =>
          { x with status := RunStatus.cancelled }),
        workflows := clearPointer db.workflows r.workflow_id }
    else Except.error ApiError.invalidState

/-- Modelled from the spec: the `/ai-answer` endpoint (§4.3 closing
paragraph, Scenario 4, API docs "AI Answer"); not implemented in the
repository. Requires an existing turn for the message identifier, else
not-found; updates only that turn, attaching the agent's answer,
reasoning and tool-call trace, and touches no run state. -/
def recordAiAnswer (db : DB) (mid : Nat) (response : String)
    (reasoning : Option String) (toolCalls : Option String) :
    Except ApiError DB :=
  match findTurn db mid with
  | none => Except.error ApiError.notFound
  | some _ =>
    Except.ok { db with
      turns := db.turns.map (fun t =>
        if t.message_id = mid then
          { t with
            ai_answer := some response,
            ai_reasoning := reasoning,
            ai_tool_calls := toolCalls }
        else t) }

/-- Conversation pointer consistency: a null pointer means no
non-terminal run, a non-null pointer names an existing non-terminal run
of that conversation. -/
def pointerOk (runs : List WorkflowRun) (w : Workflow) : Bool :=
  match w.current_run_id with
  | none => activeCountL runs w.id == 0
  | some rid => runs.any (fun r =>
      r.id == rid && (r.workflow_id == w.id && isActiveStatus r.status))

/-- Store invariant: run identifiers are unique and below the freshness
source, and every conversation has at most one non-terminal run with a
consistent active-run pointer. -/
def StoreInv (db : DB) : Prop :=
  (db.runs.map WorkflowRun.id).Nodup ∧
  (∀ r ∈ db.runs, r.id < db.next_uuid) ∧
  ∀ w ∈ db.workflows,
    activeCountL db.runs w.id ≤ 1 ∧ pointerOk db.runs w = true

/-- Two distinct members both satisfying a predicate force a count of at
least two. -/
theorem two_le_countP {α : Type} {p : α → Bool} {l : List α} {a b : α}
    (ha : a ∈ l) (hb : b ∈ l) (hne : a ≠ b)
    (hpa : p a = true) (hpb : p b = true) : 2 ≤ l.countP p := by
  induction l with
  | nil => cases ha
  | cons x t ih =>
    rcases List.mem_cons.mp ha with rfl | ha2
    · rcases List.mem_cons.mp hb with rfl | hb2
      · exact absurd rfl hne
      · have h1 : 0 < t.countP p := List.countP_pos_iff.mpr ⟨b, hb2, hpb⟩
        rw [List.countP_cons]
        simp only [hpa, if_pos]
        omega
    · rcases List.mem_cons.mp hb with rfl | hb2
      · have h1 : 0 < t.countP p := List.countP_pos_iff.mpr ⟨a, ha2, hpa⟩
        rw [List.countP_cons]
        simp only [hpb, if_pos]
        omega
      · have h2 := ih ha2 hb2
        rw [List.countP_cons]
        omega

/-- Members of a run table with unique identifiers are determined by
their identifier. -/
theorem run_id_unique {runs : List WorkflowRun}
    (hnd : (runs.map WorkflowRun.id).Nodup) {a b : WorkflowRun}
    (ha : a ∈ runs) (hb : b ∈ runs) (hid : a.id = b.id) : a = b :=
  List.inj_on_of_nodup_map hnd ha hb hid

/-- Updating one run leaves the identifier column unchanged whenever the
update preserves identifiers. -/
theorem updateRunList_map_id (runs : List WorkflowRun) (rid : Nat)
    (f : WorkflowRun → WorkflowRun) (hfid : ∀ r, (f r).id = r.id) :
    (updateRunList runs rid f).map WorkflowRun.id =
      runs.map WorkflowRun.id := by
  rw [updateRunList, List.map_map]
  apply List.map_congr_left
  intro r _
  by_cases h : r.id = rid
  · simp [Function.comp, h, hfid]
  · simp [Function.comp, h]

/-- Terminating one active run while clearing its owner's active-run
pointer preserves the store invariant; this is the shared shape of the
complete, fail and cancel operations. -/
theorem storeInv_terminate (db : DB) (rid : Nat) (r0 : WorkflowRun)
    (f : WorkflowRun → WorkflowRun)
    (hfind : findRun db rid = some r0)
    (hactive : isActiveStatus r0.status = true)
    (hfid : ∀ r, (f r).id = r.id)
    (hfw : ∀ r, (f r).workflow_id = r.workflow_id)
    (hterm : isActiveStatus (f r0).status = false)
    (hInv : StoreInv db)
    (db2 : DB)
    (hruns : db2.runs = updateRunList db.runs rid f)
    (hws : db2.workflows = clearPointer db.workflows r0.workflow_id)
    (hnu : db2.next_uuid = db.next_uuid) :
    StoreInv db2 := by
  obtain ⟨hnd, hbound, hwork⟩ := hInv
  have hr0mem : r0 ∈ db.runs := List.mem_of_find?_eq_some hfind
  have hr0id : r0.id = rid := by
    have := List.find?_some hfind
    simpa using this
  have hhid : ∀ r ∈ db.runs, r.id = rid → r = r0 := by
    intro r hr hid
    exact run_id_unique hnd hr hr0mem (by rw [hid, hr0id])
  refine ⟨?_, ?_, ?_⟩
  · rw [hruns, updateRunList_map_id db.runs rid f hfid]
    exact hnd
  · intro x hx
    rw [hruns, updateRunList] at hx
    obtain ⟨r, hr, rfl⟩ := List.mem_map.mp hx
    rw [hnu]
    by_cases h : r.id = rid
    · rw [if_pos h, hfid]
      exact hbound r hr
    · rw [if_neg h]
      exact hbound r hr
  · intro w2 hw2
    rw [hws, clearPointer] at hw2
    obtain ⟨w, hw, rfl⟩ := List.mem_map.mp hw2
    by_cases hA : w.id = r0.workflow_id
    · rw [if_pos hA]
      have hcount0 : activeCountL db2.runs r0.workflow_id = 0 := by
        rw [activeCountL, List.countP_eq_zero]
        intro x hx
        rw [hruns, updateRunList] at hx
        obtain ⟨r, hr, rfl⟩ := List.mem_map.mp hx
        by_cases h : r.id = rid
        · have hr0 : r = r0 := hhid r hr h
          subst hr0
          rw [if_pos h]
          simp [hterm]
        · rw [if_neg h]
          intro hp
          have hne : r ≠ r0 := fun he => h (by rw [he, hr0id])
          have hpr0 : (r0.workflow_id == r0.workflow_id &&
              isActiveStatus r0.status) = true := by simp [hactive]
          have h2 := two_le_countP
            (p := fun x =>
              x.workflow_id == r0.workflow_id && isActiveStatus x.status)
            hr hr0mem hne hp hpr0
          have hle := (hwork w hw).1
          rw [activeCountL, hA] at hle
          omega
      constructor
      · show activeCountL db2.runs w.id ≤ 1
        rw [hA, hcount0]
        omega
      · show (activeCountL db2.runs w.id == 0) = true
        rw [hA, hcount0]
        rfl
    · rw [if_neg hA]
      have hsame : activeCountL db2.runs w.id = activeCountL db.runs w.id := by
        rw [hruns, updateRunList, activeCountL, activeCountL,
          List.countP_map]
        apply List.countP_congr
        intro r hr
        by_cases h : r.id = rid
        · have hreq : r = r0 := hhid r hr h
          have hw1 : ((f r).workflow_id == w.id) = false := by
            rw [hfw, hreq]
            simp only [beq_eq_false_iff_ne, ne_eq]
            exact fun he => hA he.symm
          have hw2b : (r.workflow_id == w.id) = false := by
            rw [hreq]
            simp only [beq_eq_false_iff_ne, ne_eq]
            exact fun he => hA he.symm
          simp [Function.comp, h, hw1, hw2b]
        · simp [Function.comp, h]
      refine ⟨by rw [hsame]; exact (hwork w hw).1, ?_⟩
      have hok := (hwork w hw).2
      rw [pointerOk] at hok ⊢
      cases hcr : w.current_run_id with
      | none =>
        rw [hcr] at hok
        simp only [activeCountL] at hsame hok ⊢
        rw [hsame]
        exact hok
      | some rid2 =>
        rw [hcr] at hok
        obtain ⟨r2, hr2, hp2⟩ := List.any_eq_true.mp hok
        have hp3 : r2.id = rid2 ∧ r2.workflow_id = w.id ∧
            isActiveStatus r2.status = true := by simpa using hp2
        have hne2 : r2.id ≠ rid := by
          intro he
          have : r2 = r0 := hhid r2 hr2 he
          rw [this] at hp3
          exact hA hp3.2.1.symm
        apply List.any_eq_true.mpr
        refine ⟨r2, ?_, hp2⟩
        rw [hruns, updateRunList]
        apply List.mem_map.mpr
        exact ⟨r2, hr2, by rw [if_neg hne2]⟩

/-- Starting a run when no active run exists preserves the store
invariant: the new run becomes the conversation's single non-terminal
run and the pointer is set to it. -/
theorem storeInv_start (db : DB) (wid : Nat) (inp : String) (ac : Bool)
    (hInv : StoreInv db) (db2 : DB) (rid : Nat)
    (hok : startRun db wid inp ac = Except.ok (db2, rid)) :
    StoreInv db2 := by
  obtain ⟨hnd, hbound, hwork⟩ := hInv
  rw [startRun] at hok
  cases hfw : findWorkflow db wid with
  | none => rw [hfw] at hok; cases hok
  | some w0 =>
    rw [hfw] at hok
    by_cases hact : hasActiveL db.runs wid = true
    · rw [if_pos hact] at hok
      cases hok
    · rw [if_neg hact] at hok
      simp only [Except.ok.injEq, Prod.mk.injEq] at hok
      obtain ⟨hdb2, hrid⟩ := hok
      subst hdb2
      have hcount0 : activeCountL db.runs wid = 0 := by
        rw [activeCountL, List.countP_eq_zero]
        intro x hx hp
        exact hact (List.any_eq_true.mpr ⟨x, hx, hp⟩)
      refine ⟨?_, ?_, ?_⟩
      · show ((db.runs ++ [(⟨db.next_uuid, wid, db.next_uuid + 1,
          RunStatus.running, inp, ac, CheckpointState.empty, none,
          none⟩ : WorkflowRun)]).map WorkflowRun.id).Nodup
        rw [List.map_append]
        refine List.Nodup.append hnd (by simp) ?_
        intro a ha hb
        obtain ⟨r, hr, rfl⟩ := List.mem_map.mp ha
        have hlt := hbound r hr
        have hb2 : r.id = db.next_uuid := by simpa using hb
        omega
      · intro x hx
        simp only [List.mem_append, List.mem_singleton] at hx
        rcases hx with hx | hx
        · have := hbound x hx
          show x.id < db.next_uuid + 2
          omega
        · subst hx
          show db.next_uuid < db.next_uuid + 2
          omega
      · intro w2 hw2
        simp only [setPointer, List.mem_map] at hw2
        obtain ⟨w, hw, rfl⟩ := hw2
        by_cases hA : w.id = wid
        · rw [if_pos hA]
          have hc : activeCountL (db.runs ++ [⟨db.next_uuid, wid,
              db.next_uuid + 1, RunStatus.running, inp, ac,
              CheckpointState.empty, none, none⟩]) w.id = 1 := by
            rw [activeCountL, List.countP_append]
            have h1 : activeCountL db.runs w.id = 0 := by
              rw [hA]; exact hcount0
            rw [activeCountL] at h1
            rw [h1]
            simp [hA, isActiveStatus, isTerminal]
          constructor
          · show activeCountL _ w.id ≤ 1
            rw [hc]
          · show (_ : List WorkflowRun).any _ = true
            apply List.any_eq_true.mpr
            refine ⟨⟨db.next_uuid, wid, db.next_uuid + 1,
              RunStatus.running, inp, ac, CheckpointState.empty, none,
              none⟩, by simp, ?_⟩
            simp [hA, isActiveStatus, isTerminal]
        · rw [if_neg hA]
          have hsame : activeCountL (db.runs ++ [⟨db.next_uuid, wid,
              db.next_uuid + 1, RunStatus.running, inp, ac,
              CheckpointState.empty, none, none⟩]) w.id =
              activeCountL db.runs w.id := by
            rw [activeCountL, List.countP_append, activeCountL]
            have : ((⟨db.next_uuid, wid, db.next_uuid + 1,
                RunStatus.running, inp, ac, CheckpointState.empty, none,
                none⟩ : WorkflowRun).workflow_id == w.id &&
                isActiveStatus RunStatus.running) = false := by
              simp only [Bool.and_eq_false_iff]
              left
              simp only [beq_eq_false_iff_ne, ne_eq]
              exact fun he => hA he.symm
            simp [this]
          refine ⟨by rw [hsame]; exact (hwork w hw).1, ?_⟩
          have hok2 := (hwork w hw).2
          rw [pointerOk] at hok2 ⊢
          cases hcr : w.current_run_id with
          | none =>
            rw [hcr] at hok2
            simp only [activeCountL] at hsame hok2 ⊢
            rw [hsame]
            exact hok2
          | some rid2 =>
            rw [hcr] at hok2
            obtain ⟨r2, hr2, hp2⟩ := List.any_eq_true.mp hok2
            exact List.any_eq_true.mpr
              ⟨r2, List.mem_append_left _ hr2, hp2⟩

/-- C3: under the store invariant every conversation has at most one
non-terminal run and its active-run pointer is null exactly when no such
run exists; the invariant is preserved by `startRun` (which fails with
busy-conflict whenever the conversation already has an active run), by
`completeRun`, by `failRunDb`, and by `cancelRunDb`. -/
theorem single_active_run_invariant (db : DB) (hInv : StoreInv db) :
    (∀ w ∈ db.workflows, activeCountL db.runs w.id ≤ 1 ∧
      (w.current_run_id = none ↔ activeCountL db.runs w.id = 0)) ∧
    (∀ wid inp ac, (findWorkflow db wid).isSome = true →
      hasActiveL db.runs wid = true →
      startRun db wid inp ac = Except.error ApiError.conflict) ∧
    (∀ wid inp ac db2 rid,
      startRun db wid inp ac = Except.ok (db2, rid) → StoreInv db2) ∧
    (∀ rid out mems db2,
      completeRun db rid out mems = Except.ok db2 → StoreInv db2) ∧
    (∀ rid err db2,
      failRunDb db rid err = Except.ok db2 → StoreInv db2) ∧
    (∀ rid db2, cancelRunDb db rid = Except.ok db2 → StoreInv db2) := by
  refine ⟨?_, ?_, ?_, ?_, ?_, ?_⟩
  · intro w hw
    obtain ⟨hle, hok⟩ := hInv.2.2 w hw
    refine ⟨hle, ?_, ?_⟩
    · intro hnone
      simp only [pointerOk, hnone] at hok
      simpa using hok
    · intro h0
      cases hcr : w.current_run_id with
      | none => rfl
      | some rid =>
        exfalso
        simp only [pointerOk, hcr] at hok
        obtain ⟨r, hr, hp⟩ := List.any_eq_true.mp hok
        have hp2 : r.id = rid ∧ r.workflow_id = w.id ∧
            isActiveStatus r.status = true := by simpa using hp
        have hpos : 0 < activeCountL db.runs w.id := by
          rw [activeCountL]
          exact List.countP_pos_iff.mpr
            ⟨r, hr, by simp [hp2.2.1, hp2.2.2]⟩
        omega
  · intro wid inp ac hsome hact
    rw [startRun]
    cases hfw : findWorkflow db wid with
    | none => rw [hfw] at hsome; cases hsome
    | some w0 => rw [if_pos hact]
  · intro wid inp ac db2 rid hok
    exact storeInv_start db wid inp ac hInv db2 rid hok
  · intro rid out mems db2 hok
    rw [completeRun] at hok
    split at hok
    next => cases hok
    next r hfr =>
      split at hok
      next hst =>
        simp only [Except.ok.injEq] at hok
        subst hok
        exact storeInv_terminate db rid r
          (fun x => { x with
            status := RunStatus.completed,
            final_output := some out })
          hfr (by rw [isActiveStatus, hst]; rfl)
          (fun _ => rfl) (fun _ => rfl) rfl hInv _ rfl rfl rfl
      next hst => cases hok
  · intro rid err db2 hok
    rw [failRunDb] at hok
    split at hok
    next => cases hok
    next r hfr =>
      split at hok
      next hst => cases hok
      next hst =>
        simp only [Except.ok.injEq] at hok
        subst hok
        have hterm0 : isTerminal r.status = false := by
          revert hst
          cases isTerminal r.status <;> simp
        exact storeInv_terminate db rid r
          (fun x => { x with
            status := RunStatus.failed,
            error := some err })
          hfr (by rw [isActiveStatus, hterm0]; rfl)
          (fun _ => rfl) (fun _ => rfl) rfl hInv _ rfl rfl rfl
  · intro rid db2 hok
    rw [cancelRunDb] at hok
    split at hok
    next => cases hok
    next r hfr =>
      split at hok
      next hst =>
        simp only [Except.ok.injEq] at hok
        subst hok
        exact storeInv_terminate db rid r
          (fun x => { x with status := RunStatus.cancelled })
          hfr hst (fun _ => rfl) (fun _ => rfl) rfl hInv _ rfl rfl rfl
      next hst => cases hok

/-- State of `pausedDb` after its paused run is cancelled: run 5 is
terminal and the pointer is cleared. -/
def cancelledDb : DB :=
  ⟨[⟨1, WorkflowStatus.active, none, "", none, none⟩],
    [⟨5, 1, 9, RunStatus.cancelled, "best product?", true,
      ⟨some "which region?", [], [], []⟩, none, none⟩],
    [], [], 0, 10⟩

/-- Witness for C3: the concrete paused conversation satisfies the
invariant, and cancelling its run preserves it. -/
theorem single_active_run_invariant_witness :
    StoreInv pausedDb ∧
    cancelRunDb pausedDb 5 = Except.ok cancelledDb ∧
    StoreInv cancelledDb := by
  have hInv : StoreInv pausedDb := by
    refine ⟨by decide, by decide, by decide⟩
  refine ⟨hInv, rfl, ?_⟩
  exact (single_active_run_invariant pausedDb hInv).2.2.2.2.2 5
    cancelledDb rfl

/-- Finding a freshly appended turn: when no existing turn carries the
new turn\x27s message identifier, lookup after the append returns exactly
the new record. -/
theorem find_turn_append_fresh (l : List ConversationTurn)
    (t0 : ConversationTurn)
    (hfresh : ∀ t ∈ l, t.message_id ≠ t0.message_id) :
    (l ++ [t0]).find? (fun t => t.message_id == t0.message_id) =
      some t0 := by
  rw [List.find?_append]
  have h1 : l.find? (fun t => t.message_id == t0.message_id) = none := by
    rw [List.find?_eq_none]
    intro t ht
    simp only [beq_iff_eq]
    exact hfresh t ht
  rw [h1]
  simp

/-- Finding the freshly appended turn after a message-id-preserving
update pass over the table. -/
theorem find_turn_map_append_fresh (l : List ConversationTurn)
    (t0 : ConversationTurn) (upd : ConversationTurn → ConversationTurn)
    (hid : ∀ t, (upd t).message_id = t.message_id)
    (hfresh : ∀ t ∈ l, t.message_id ≠ t0.message_id) :
    ((l ++ [t0]).map upd).find?
      (fun t => t.message_id == t0.message_id) = some (upd t0) := by
  rw [List.map_append, List.find?_append]
  have h1 : (l.map upd).find?
      (fun t => t.message_id == t0.message_id) = none := by
    rw [List.find?_eq_none]
    intro x hx
    obtain ⟨t, ht, rfl⟩ := List.mem_map.mp hx
    simp only [beq_iff_eq, hid]
    exact hfresh t ht
  rw [h1]
  simp [hid]

/-- C5: when a run reaches its terminal success state through
`completeRun`, the turn record is created at that moment, keyed by the
run\x27s message identifier, carrying the retrieval output with the agent
answer, reasoning and tool trace all still absent; a later
`recordAiAnswer` call then mutates exactly that turn once, attaching the
three agent fields while leaving its creation-time fields, every other
turn, and all run state untouched. -/
theorem turn_created_at_completion (db : DB) (rid : Nat)
    (r : WorkflowRun) (out : String) (mems : List String) (db2 : DB)
    (hfr : findRun db rid = some r)
    (hfresh : ∀ t ∈ db.turns, t.message_id ≠ r.message_id)
    (hok : completeRun db rid out mems = Except.ok db2) :
    findTurn db2 r.message_id = some ⟨r.message_id, r.workflow_id, rid,
      r.user_input, r.state.clarifications, r.state.subqueries,
      r.state.reasoningbank_hits, mems, none, none, none⟩ ∧
    (∀ ans rsn tls db3,
      recordAiAnswer db2 r.message_id ans rsn tls = Except.ok db3 →
      findTurn db3 r.message_id = some ⟨r.message_id, r.workflow_id, rid,
        r.user_input, r.state.clarifications, r.state.subqueries,
        r.state.reasoningbank_hits, mems, some ans, rsn, tls⟩ ∧
      db3.runs = db2.runs ∧
      (∀ t ∈ db2.turns, t.message_id ≠ r.message_id → t ∈ db3.turns)) := by
  rw [completeRun] at hok
  split at hok
  next hnone => cases hok
  next r2 hfr2 =>
    rw [hfr] at hfr2
    obtain rfl : r = r2 := Option.some.inj hfr2
    split at hok
    next hst =>
      simp only [Except.ok.injEq] at hok
      subst hok
      have hft :
          findTurn ({ db with
            runs := updateRunList db.runs rid (fun x =>
              { x with
                status := RunStatus.completed,
                final_output := some out }),
            turns := db.turns ++ [⟨r.message_id, r.workflow_id, rid,
              r.user_input, r.state.clarifications, r.state.subqueries,
              r.state.reasoningbank_hits, mems, none, none, none⟩],
            events := db.events ++ [⟨db.next_event_id, r.workflow_id,
              some rid, out, true, false⟩],
            next_event_id := db.next_event_id + 1,
            workflows := clearPointer db.workflows r.workflow_id } : DB)
            r.message_id =
          some ⟨r.message_id, r.workflow_id, rid, r.user_input,
            r.state.clarifications, r.state.subqueries,
            r.state.reasoningbank_hits, mems, none, none, none⟩ :=
        find_turn_append_fresh db.turns
          ⟨r.message_id, r.workflow_id, rid, r.user_input,
            r.state.clarifications, r.state.subqueries,
            r.state.reasoningbank_hits, mems, none, none, none⟩
          (fun t ht => hfresh t ht)
      refine ⟨hft, ?_⟩
      intro ans rsn tls db3 hok3
      rw [recordAiAnswer] at hok3
      split at hok3
      next hmiss =>
        rw [hft] at hmiss
        cases hmiss
      next t0 hsome =>
        simp only [Except.ok.injEq] at hok3
        subst hok3
        refine ⟨?_, rfl, ?_⟩
        · have h2 := find_turn_map_append_fresh db.turns
            ⟨r.message_id, r.workflow_id, rid, r.user_input,
              r.state.clarifications, r.state.subqueries,
              r.state.reasoningbank_hits, mems, none, none, none⟩
            (fun t =>
              if t.message_id = r.message_id then
                { t with
                  ai_answer := some ans,
                  ai_reasoning := rsn,
                  ai_tool_calls := tls }
              else t)
            (by
              intro t
              by_cases he : t.message_id = r.message_id <;> simp [he])
            hfresh
          exact h2.trans (by simp)
        · intro t ht hne
          apply List.mem_map.mpr
          exact ⟨t, ht, by rw [if_neg hne]⟩
    next hst => cases hok

/-- C9: recording an agent answer for a message identifier with no turn
yet fails with not-found (the transaction produces no new state, so
nothing is mutated); when the turn exists the operation leaves runs,
workflows and events untouched and changes no turn other than the one
keyed by the message identifier. -/
theorem ai_answer_requires_turn (db : DB) (mid : Nat) (ans : String)
    (rsn tls : Option String) :
    (findTurn db mid = none →
      recordAiAnswer db mid ans rsn tls =
        Except.error ApiError.notFound) ∧
    (∀ db2, recordAiAnswer db mid ans rsn tls = Except.ok db2 →
      db2.runs = db.runs ∧ db2.workflows = db.workflows ∧
      db2.events = db.events ∧
      (∀ t ∈ db.turns, t.message_id ≠ mid → t ∈ db2.turns) ∧
      (∀ t ∈ db2.turns, t.message_id ≠ mid → t ∈ db.turns)) := by
  constructor
  · intro hmiss
    rw [recordAiAnswer]
    split
    next => rfl
    next t0 hsome =>
      rw [hmiss] at hsome
      cases hsome
  · intro db2 hok
    rw [recordAiAnswer] at hok
    split at hok
    next => cases hok
    next t0 hsome =>
      simp only [Except.ok.injEq] at hok
      subst hok
      refine ⟨rfl, rfl, rfl, ?_, ?_⟩
      · intro t ht hne
        apply List.mem_map.mpr
        exact ⟨t, ht, by rw [if_neg hne]⟩
      · intro t ht hne
        obtain ⟨t1, ht1, rfl⟩ := List.mem_map.mp ht
        by_cases he : t1.message_id = mid
        · rw [if_pos he] at hne ⊢
          exact absurd he hne
        · rw [if_neg he]
          exact ht1

/-- Conversation whose active run 6 is currently running. -/
def runningDb : DB :=
  ⟨[⟨1, WorkflowStatus.active, none, "", some 6, none⟩], [runningRun],
    [], [], 0, 10⟩

/-- State of `runningDb` after run 6 completes: the run is terminal, the
turn exists without an agent answer, the final event is logged and the
pointer is cleared. -/
def completedDb : DB :=
  ⟨[⟨1, WorkflowStatus.active, none, "", none, none⟩],
    [⟨6, 1, 9, RunStatus.completed, "best product?", true,
      CheckpointState.empty, some "out", none⟩],
    [⟨9, 1, 6, "best product?", [], [], [], ["m1"], none, none, none⟩],
    [⟨0, 1, some 6, "out", true, false⟩], 1, 10⟩

/-- Witness for C5: completing concrete run 6 creates its answerless
turn keyed by message 9. -/
theorem turn_created_at_completion_witness :
    (findRun runningDb 6 = some runningRun ∧
     (∀ t ∈ runningDb.turns, t.message_id ≠ runningRun.message_id) ∧
     completeRun runningDb 6 "out" ["m1"] = Except.ok completedDb) ∧
    findTurn completedDb runningRun.message_id =
      some ⟨9, 1, 6, "best product?", [], [], [], ["m1"], none, none,
        none⟩ := by
  refine ⟨⟨rfl, ?_, rfl⟩, ?_⟩
  · intro t ht
    exact absurd ht (by simp [runningDb])
  · exact (turn_created_at_completion runningDb 6 runningRun "out"
      ["m1"] completedDb rfl
      (fun t ht => absurd ht (by simp [runningDb])) rfl).1

/-- Witness for C9: recording an answer against an empty store fails
not-found. -/
theorem ai_answer_requires_turn_witness :
    findTurn emptyDb 9 = none ∧
    recordAiAnswer emptyDb 9 "ans" none none =
      Except.error ApiError.notFound := by
  refine ⟨rfl, ?_⟩
  exact (ai_answer_requires_turn emptyDb 9 "ans" none none).1 rfl

/-- Row of the `waitlist` D1 table; the auto-increment id is immaterial
to the handler and omitted. -/
structure WaitlistRow where
  email : String
  created_at : String
deriving DecidableEq

/-- Response of the waitlist handler: HTTP status with the JSON body
fields that matter, the error message for 400, or the success message
with the `alreadyExists` flag for 200. -/
inductive WaitlistResponse
| error (status : Nat) (message : String)
| ok (message : String) (alreadyExists : Bool)
deriving DecidableEq

/-- Whitespace trim at both ends of a character list, the behavior of
the JavaScript `trim`. -/
def trimChars (l : List Char) : List Char :=
  ((l.dropWhile (fun c => c.isWhitespace)).reverse.dropWhile
    (fun c => c.isWhitespace)).reverse

/-- Modelling of `email.toLowerCase().trim()` from the handler. -/
def normalizeEmail (e : String) : String :=
  String.mk (trimChars (e.toList.map Char.toLower))

/-- Split of a character list at every occurrence of a separator, the
shape of a split on a single-character separator. -/
def splitChar (c : Char) : List Char → List (List Char)
  | [] => [[]]
  | x :: xs =>
    let r := splitChar c xs
    if x == c then [] :: r
    else
      match r with
      | [] => [[x]]
      | y :: ys => (x :: y) :: ys

/-- Embedding of the handler regex over email strings: the anchored
pattern of one-or-more non-space non-at characters, an at sign, the
same class again, a literal dot, and the class once more —
equivalently, no whitespace anywhere, exactly one at sign with a
nonempty local part, and a dot strictly inside the domain. -/
def emailRegexTest (e : String) : Bool :=
  (e.toList.all (fun c => !c.isWhitespace)) &&
  (match splitChar '@' e.toList with
   | [l, d] => !l.isEmpty && !d.isEmpty &&
       ((d.drop 1).dropLast.contains '.')
   | _ => false)

/-- Embedding of `onRequestPost` from the waitlist Pages Function, as a
pure function of the parsed `email` field (none stands for a missing or
non-string field; JavaScript falsiness makes the empty string fail the
required check too), the table contents, and the current timestamp; it
returns the response together with the table after the call. -/
def onRequestPost (email : Option String) (db : List WaitlistRow)
    (now : String) : WaitlistResponse × List WaitlistRow :=
  match email with
  | none => (WaitlistResponse.error 400 "Email is required", db)
  | some e =>
    if e = "" then (WaitlistResponse.error 400 "Email is required", db)
    else if !emailRegexTest e then
      (WaitlistResponse.error 400 "Invalid email format", db)
    else
      let normalizedEmail := normalizeEmail e
      if db.any (fun row => row.email == normalizedEmail) then
        (WaitlistResponse.ok "You\x27re already on the waitlist!" true,
          db)
      else
        (WaitlistResponse.ok "Successfully added to waitlist!" false,
          db ++ [⟨normalizedEmail, now⟩])

/-- Counterexample to C10 as stated: an email with a leading space
normalizes to an address that already has a row, yet the handler
rejects the request with 400 before ever normalizing, because the
format check runs on the raw email and rejects all whitespace. -/
theorem waitlist_dup_claim_cex :
    normalizeEmail " a@b.com" = "a@b.com" ∧
    ([⟨"a@b.com", "t0"⟩] : List WaitlistRow).any
      (fun row => row.email == normalizeEmail " a@b.com") = true ∧
    onRequestPost (some " a@b.com") [⟨"a@b.com", "t0"⟩] "t1" =
      (WaitlistResponse.error 400 "Invalid email format",
        [⟨"a@b.com", "t0"⟩]) := by
  refine ⟨by decide, by decide, by decide⟩

/-- C10 (amended): for every request whose email passes the handler
format check and whose lowercased, trimmed form already has a row, the
handler returns the 200 success body with alreadyExists set and the
table unchanged; and whatever the request, the table either stays
unchanged or gains exactly one row holding the lowercased, trimmed form
of the submitted email. -/
theorem waitlist_dup_and_insert (e : String) (db : List WaitlistRow)
    (now : String)
    (hval : emailRegexTest e = true)
    (hdup : db.any (fun row => row.email == normalizeEmail e) = true) :
    onRequestPost (some e) db now =
      (WaitlistResponse.ok "You\x27re already on the waitlist!" true,
        db) ∧
    (∀ em db2 now2,
      (onRequestPost em db2 now2).2 = db2 ∨
      ∃ s, em = some s ∧ (onRequestPost em db2 now2).2 =
        db2 ++ [⟨normalizeEmail s, now2⟩]) := by
  constructor
  · have hne : e ≠ "" := by
      intro h
      subst h
      exact absurd hval (by decide)
    simp [onRequestPost, hne, hval, hdup]
  · intro em db2 now2
    cases em with
    | none => exact Or.inl rfl
    | some s =>
      by_cases h1 : s = ""
      · subst h1
        exact Or.inl rfl
      · by_cases h2 : emailRegexTest s = true
        · by_cases h3 : db2.any
              (fun row => row.email == normalizeEmail s) = true
          · exact Or.inl (by simp [onRequestPost, h1, h2, h3])
          · refine Or.inr ⟨s, rfl, ?_⟩
            simp [onRequestPost, h1, h2, h3]
        · have h2f : emailRegexTest s = false := by
            revert h2
            cases emailRegexTest s <;> simp
          exact Or.inl (by simp [onRequestPost, h1, h2f])

/-- Witness for the amended C10 at a concrete duplicate signup. -/
theorem waitlist_dup_and_insert_witness :
    emailRegexTest "A@b.com" = true ∧
    ([⟨"a@b.com", "t0"⟩] : List WaitlistRow).any
      (fun row => row.email == normalizeEmail "A@b.com") = true ∧
    onRequestPost (some "A@b.com") [⟨"a@b.com", "t0"⟩] "t1" =
      (WaitlistResponse.ok "You\x27re already on the waitlist!" true,
        [⟨"a@b.com", "t0"⟩]) := by
  refine ⟨by decide, by decide, ?_⟩
  exact (waitlist_dup_and_insert "A@b.com" [⟨"a@b.com", "t0"⟩] "t1"
    (by decide) (by decide)).1
